import Mathlib

/-!
Shallow embedding of `metagpt/tools/tool_registry.py`: the tool registry
(`ToolRegistry.register_tool` and its query methods), schema creation
(`make_schema`), dynamic discovery (`load_module_from_file`,
`register_tools_from_file`, `register_tools_from_path`) and identifier
resolution (`validate_tool_names`).

Python dicts are modelled as insertion-ordered association lists with
`dictLookup` / `dictInsert` (overwrite keeps position, fresh key appends),
matching CPython dict semantics.  External effects (the opaque schema
converter `convert_code_to_tool_schema`, the yaml file write, the
filesystem tests and module loading) are modelled by explicit outcome
parameters / an `Env` of oracles, so the registry logic itself is the
source code, translated statement by statement.
-/

namespace ToolRegistrySpec

/-- Lookup in an insertion-ordered association list (Python `d.get(k)` / `d[k]`). -/
def dictLookup {α : Type} : List (String × α) → String → Option α
  | [], _ => none
  | (k', v) :: rest, k => if k' = k then some v else dictLookup rest k

/-- Insertion into an insertion-ordered association list (Python `d[k] = v`):
an existing key keeps its position and gets the new value, a fresh key is
appended at the end. -/
def dictInsert {α : Type} : List (String × α) → String → α → List (String × α)
  | [], k, v => [(k, v)]
  | (k', v') :: rest, k, v =>
    if k' = k then (k, v) :: rest else (k', v') :: dictInsert rest k v

/-- Python `d.update(other)`: insert every pair of `other` in order. -/
def dictUpdate {α : Type} (d other : List (String × α)) : List (String × α) :=
  other.foldl (fun a p => dictInsert a p.1 p.2) d

/-- The `Tool` record.  Modelled from the spec: `metagpt/tools/tool_data_type.py`
is not under `src/`; the fields are those of the constructor call
`Tool(name=..., path=..., schemas=..., code=..., tags=...)` in
`register_tool` and of spec section 3 (name, path, schema, code, tags). -/
structure Tool where
  name : String
  path : String
  schemas : List (String × String)
  code : String
  tags : List String
deriving Repr, DecidableEq

/-- Outcome of the opaque converter `convert_code_to_tool_schema` on a given
source object: it either raises, or returns a schema dict (possibly empty). -/
inductive ConvOutcome where
  | raises : ConvOutcome
  | returns : List (String × String) → ConvOutcome
deriving Repr, DecidableEq

/-- Embeds `make_schema(tool_source_object, include, path)`: inside one `try` block
the converter runs and the schema is dumped to the yaml file at `path`;  any
exception from either step is caught and the schema is replaced by `{}`.
The converter call is the opaque outcome `conv`; `writeOk` is whether the
file write succeeds.  (The preceding `os.makedirs` call is outside the
`try` and has no effect on the returned schema.) -/
def make_schema (conv : ConvOutcome) (writeOk : Bool) : List (String × String) :=
  match conv with
  | .raises => []
  | .returns schema => if writeOk then schema else []

/-- Embeds `ToolRegistry(BaseModel)`: the primary `tools` dict (name to `Tool`) and
the two-layer `tools_by_tags` dict (tag to (name to `Tool`)), a
`defaultdict(dict)`. -/
structure ToolRegistry where
  tools : List (String × Tool)
  tools_by_tags : List (String × List (String × Tool))
deriving Repr, DecidableEq

/-- The freshly created registry `TOOL_REGISTRY = ToolRegistry()`. -/
def ToolRegistry.init : ToolRegistry := ⟨[], []⟩

/-- Embeds `has_tool`: `key in self.tools`. -/
def ToolRegistry.has_tool (r : ToolRegistry) (key : String) : Bool :=
  (dictLookup r.tools key).isSome

/-- Embeds `get_tool`: `self.tools.get(key)`. -/
def ToolRegistry.get_tool (r : ToolRegistry) (key : String) : Option Tool :=
  dictLookup r.tools key

/-- Embeds `get_tools_by_tag`: `self.tools_by_tags.get(key, {})`. -/
def ToolRegistry.get_tools_by_tag (r : ToolRegistry) (key : String) :
    List (String × Tool) :=
  (dictLookup r.tools_by_tags key).getD []

/-- Embeds `get_all_tools`: `self.tools`. -/
def ToolRegistry.get_all_tools (r : ToolRegistry) : List (String × Tool) :=
  r.tools

/-- Embeds `has_tool_tag`: `key in self.tools_by_tags`. -/
def ToolRegistry.has_tool_tag (r : ToolRegistry) (key : String) : Bool :=
  (dictLookup r.tools_by_tags key).isSome

/-- Embeds `get_tool_tags`: `list(self.tools_by_tags.keys())`. -/
def ToolRegistry.get_tool_tags (r : ToolRegistry) : List String :=
  r.tools_by_tags.map Prod.fst

/-- One step of the tag-index update loop:
`self.tools_by_tags[tag].update({tool_name: tool})`.  The `defaultdict`
access materialises an empty inner dict for a fresh tag, then the inner
dict gets the entry. -/
def tagIndexAdd (tbt : List (String × List (String × Tool)))
    (tag tool_name : String) (tool : Tool) :
    List (String × List (String × Tool)) :=
  dictInsert tbt tag (dictInsert ((dictLookup tbt tag).getD []) tool_name tool)

/-- Embeds `ToolRegistry.register_tool`.  `conv` and `writeOk` are the outcomes of
the opaque converter and of the schema-file write inside `make_schema`
(`schema_path` and `include_functions` only influence those outcomes, so
they are absorbed into them); `shapeOk` is the outcome of the
`ToolSchema(**schemas)` pydantic validation, whose exception is swallowed
(`except Exception: pass`), so it cannot influence the result.
`ToolSchema` itself is not under `src/`; per the spec it is a pure
validation of schema shape with no other effect. -/
def ToolRegistry.register_tool (r : ToolRegistry) (tool_name tool_path : String)
    (tool_code : String) (tags : Option (List String))
    (conv : ConvOutcome) (writeOk : Bool) (shapeOk : Bool) : ToolRegistry :=
  if r.has_tool tool_name then r
  else
    let schemas := make_schema conv writeOk
    if schemas.isEmpty then r
    else
      let schemas := dictInsert schemas "tool_path" tool_path
      let _ := shapeOk
      let tags := tags.getD []
      let tool : Tool :=
        { name := tool_name, path := tool_path, schemas := schemas,
          code := tool_code, tags := tags }
      { tools := dictInsert r.tools tool_name tool,
        tools_by_tags := tags.foldl (fun tbt tag => tagIndexAdd tbt tag tool_name tool)
          r.tools_by_tags }

/-- The suffix of `cs` strictly after the last occurrence of `sep`
(`none` if `sep` does not occur).  Later occurrences are preferred, so the
result is the text following the rightmost match. -/
def afterLastOcc (sep : List Char) : List Char → Option (List Char)
  | [] => if sep.isEmpty then some [] else none
  | c :: cs =>
    match afterLastOcc sep cs with
    | some r => some r
    | none =>
      if sep.isPrefixOf (c :: cs) then some ((c :: cs).drop sep.length) else none

/-- Python `sub in s` (for the nonempty literal separators used here). -/
def strContainsSub (s sub : String) : Bool :=
  (afterLastOcc sub.toList s.toList).isSome

/-- Python `s.split(sub)[-1]`.  For a separator that cannot overlap itself
(such as `"metagpt"`) the last part of the split is exactly the suffix
after the last occurrence. -/
def lastSplitPart (s sub : String) : String :=
  match afterLastOcc sub.toList s.toList with
  | some r => String.mk r
  | none => s

/-- Python `s.endswith(suffix)`. -/
def strEndsWith (s suffix : String) : Bool :=
  suffix.toList.isSuffixOf s.toList

/-- The `file_path` normalisation applied before registering:
`if "metagpt" in file_path: file_path = "metagpt" + file_path.split("metagpt")[-1]`. -/
def normFilePath (fp : String) : String :=
  if strContainsSub fp "metagpt" then "metagpt" ++ lastSplitPart fp "metagpt" else fp

/-- Embeds `os.path.basename`: the part after the last `/`. -/
def pyBasename (p : String) : String :=
  match afterLastOcc ['/'] p.toList with
  | some r => String.mk r
  | none => p

/-- Embeds `os.path.splitext(p)[0]` for a basename: drop the extension at the last
dot, unless every character before that dot is itself a dot (CPython
`genericpath._splitext`). -/
def pySplitextRoot (p : String) : String :=
  let cs := p.toList
  match ((List.range cs.length).filter (fun i => cs.getD i ' ' = '.')).getLast? with
  | none => p
  | some i => if (cs.take i).all (fun c => c = '.') then p else String.mk (cs.take i)

/-- The module name `os.path.splitext(os.path.basename(filepath))[0]` in
`load_module_from_file`; it becomes `module.__name__` of the loaded module. -/
def moduleNameOf (filepath : String) : String :=
  pySplitextRoot (pyBasename filepath)

/-- One member returned by `inspect.getmembers(module)`: its bound `name`,
whether `inspect.isclass(obj) or inspect.isfunction(obj)` holds, the
declaring module `obj.__module__`, and the outcomes of the opaque converter
and the schema-file write that `register_tool` would see for this object. -/
structure Member where
  name : String
  isClassOrFun : Bool
  objModule : String
  conv : ConvOutcome
  writeOk : Bool
deriving Repr, DecidableEq

/-- Environment of external effects: `os.path.isdir` / `os.path.isfile`,
the files produced by `os.walk` over a directory (joined paths in walk
order), and the result of loading a file as a module
(`spec.loader.exec_module`): its `inspect.getmembers` list on success, the
propagating exception on failure. -/
structure Env where
  isdir : String → Bool
  isfile : String → Bool
  walkFiles : String → List String
  loadResult : String → Except String (List Member)

/-- Embeds `load_module_from_file(filepath)`: computes the module name from the
file's basename and executes the module; a parse/execution failure is not
caught and propagates as the `Except.error` case. -/
def load_module_from_file (env : Env) (filepath : String) :
    Except String (String × List Member) :=
  match env.loadResult filepath with
  | .error e => .error e
  | .ok mems => .ok (moduleNameOf filepath, mems)

/-- The member filter in `register_tools_from_file`:
`inspect.isclass(obj) or inspect.isfunction(obj)` and
`obj.__module__ == module.__name__`. -/
def memberKept (modName : String) (m : Member) : Bool :=
  m.isClassOrFun && (m.objModule == modName)

/-- The member loop of `register_tools_from_file`: for each kept member the
(possibly already rewritten) `file_path` is normalised, `register_tool` is
called with empty `tool_code` and no tags, and
`registered_tools.update({name: TOOL_REGISTRY.get_tool(name)})` records the
current lookup result (which is `None` when registration was aborted). -/
def rtffLoop (modName : String) :
    ToolRegistry → List (String × Option Tool) → String → List Member →
    ToolRegistry × List (String × Option Tool)
  | reg, acc, _, [] => (reg, acc)
  | reg, acc, fp, m :: ms =>
    if memberKept modName m then
      let fp := normFilePath fp
      let reg := reg.register_tool m.name fp "" none m.conv m.writeOk true
      rtffLoop modName reg (dictInsert acc m.name (reg.get_tool m.name)) fp ms
    else
      rtffLoop modName reg acc fp ms

/-- Embeds `register_tools_from_file(file_path)`: load the module (load failure
propagates) and run the member loop, returning the updated registry and the
`registered_tools` dict. -/
def register_tools_from_file (env : Env) (reg : ToolRegistry) (file_path : String) :
    Except String (ToolRegistry × List (String × Option Tool)) :=
  match load_module_from_file env file_path with
  | .error e => .error e
  | .ok (modName, mems) => .ok (rtffLoop modName reg [] file_path mems)

/-- The directory walk of `register_tools_from_path`: call
`register_tools_from_file` on every walked file ending in `.py`,
accumulating `tools_registered.update(...)`; a load failure propagates. -/
def rtfpLoop (env : Env) :
    ToolRegistry → List (String × Option Tool) → List String →
    Except String (ToolRegistry × List (String × Option Tool))
  | reg, acc, [] => .ok (reg, acc)
  | reg, acc, f :: fs =>
    match register_tools_from_file env reg f with
    | .error e => .error e
    | .ok (reg', m) => rtfpLoop env reg' (dictUpdate acc m) fs

/-- Embeds `register_tools_from_path(path)`: a single `.py` file delegates to
`register_tools_from_file`; a directory is walked recursively over its
`.py` files; anything else yields the empty dict. -/
def register_tools_from_path (env : Env) (reg : ToolRegistry) (path : String) :
    Except String (ToolRegistry × List (String × Option Tool)) :=
  if env.isfile path && strEndsWith path ".py" then
    register_tools_from_file env reg path
  else if env.isdir path then
    rtfpLoop env reg [] ((env.walkFiles path).filter (fun f => strEndsWith f ".py"))
  else .ok (reg, [])

/-- The loop of `validate_tool_names`: for each key, in order, the path
branch (`os.path.isdir(key) or os.path.isfile(key)`) registers tools on the
fly and merges them; otherwise an exact tool name is included; otherwise an
exact tag contributes all its tools; otherwise a warning for `key` is
recorded and the loop continues.  A module-load failure from the path
branch propagates. -/
def validateLoop (env : Env) :
    ToolRegistry → List (String × Option Tool) → List String → List String →
    Except String (ToolRegistry × List (String × Option Tool) × List String)
  | reg, acc, warns, [] => .ok (reg, acc, warns)
  | reg, acc, warns, key :: rest =>
    if env.isdir key || env.isfile key then
      match register_tools_from_path env reg key with
      | .error e => .error e
      | .ok (reg', m) => validateLoop env reg' (dictUpdate acc m) warns rest
    else if reg.has_tool key then
      validateLoop env reg (dictInsert acc key (reg.get_tool key)) warns rest
    else if reg.has_tool_tag key then
      validateLoop env reg
        (dictUpdate acc ((reg.get_tools_by_tag key).map (fun p => (p.1, some p.2))))
        warns rest
    else
      validateLoop env reg acc (warns ++ [key]) rest

/-- Embeds `validate_tool_names(tools)`: resolves the identifier list against the
registry, returning the updated registry (path entries register on the
fly), the `valid_tools` dict, and the keys warned about as invalid. -/
def validate_tool_names (env : Env) (reg : ToolRegistry) (tools : List String) :
    Except String (ToolRegistry × List (String × Option Tool) × List String) :=
  validateLoop env reg [] [] tools

/-- Modelled from the spec: section 4.5 (Identifier Resolver), the loop.
For each identifier, in order and in this precedence: (1) a filesystem path
(file or directory) triggers discovery and merges its results; (2) an exact
tool name present in the store is included; (3) an exact tag present in the
tag index contributes all tools under that tag; (4) otherwise the
identifier is invalid, a warning is recorded, and resolution continues with
the remaining identifiers.  The result is the union keyed by tool name. -/
def resolveIdentifiersLoop (env : Env) :
    ToolRegistry → List (String × Option Tool) → List String → List String →
    Except String (ToolRegistry × List (String × Option Tool) × List String)
  | reg, found, warned, [] => .ok (reg, found, warned)
  | reg, found, warned, ident :: rest =>
    if env.isfile ident || env.isdir ident then
      match register_tools_from_path env reg ident with
      | .error e => .error e
      | .ok (reg', discovered) =>
        resolveIdentifiersLoop env reg' (dictUpdate found discovered) warned rest
    else if reg.has_tool ident then
      resolveIdentifiersLoop env reg (dictInsert found ident (reg.get_tool ident))
        warned rest
    else if reg.has_tool_tag ident then
      resolveIdentifiersLoop env reg
        (dictUpdate found ((reg.get_tools_by_tag ident).map (fun p => (p.1, some p.2))))
        warned rest
    else
      resolveIdentifiersLoop env reg found (warned ++ [ident]) rest

/-- Modelled from the spec: section 4.5, the entry point — resolve a
heterogeneous identifier list to the union of matching tools, starting from
empty result and warning sets. -/
def resolveIdentifiers (env : Env) (reg : ToolRegistry) (idents : List String) :
    Except String (ToolRegistry × List (String × Option Tool) × List String) :=
  resolveIdentifiersLoop env reg [] [] idents

/-- Tag-index consistency: every entry of `get_tools_by_tag t` carries `t`
among its tags and coincides with the primary store's entry for that name,
and conversely every registered tool is indexed under each of its tags. -/
def tagConsistent (r : ToolRegistry) : Prop :=
  (∀ tag name tool, dictLookup (r.get_tools_by_tag tag) name = some tool →
      tag ∈ tool.tags ∧ r.get_tool name = some tool) ∧
  (∀ name tool, r.get_tool name = some tool → ∀ tag, tag ∈ tool.tags →
      dictLookup (r.get_tools_by_tag tag) name = some tool)

/-- Registry effect of registering a member list from one file: fold
`register_tool` with the fixed normalised path, empty source text and no
tags over the list.  Used to characterise `register_tools_from_file`. -/
def registerMembers (fp : String) : ToolRegistry → List Member → ToolRegistry
  | reg, [] => reg
  | reg, m :: ms =>
    registerMembers fp (reg.register_tool m.name fp "" none m.conv m.writeOk true) ms

/-- Fixture: an environment with no paths and no loadable modules. -/
def envEmpty : Env :=
  ⟨fun _ => false, fun _ => false, fun _ => [], fun _ => .error "load failure"⟩

/-- Fixture: a registry holding one tool `"t"` with tag `"tg"`. -/
def regOne : ToolRegistry :=
  ToolRegistry.init.register_tool "t" "p" "" (some ["tg"])
    (.returns [("description", "d")]) true true

/-- Fixture: a locally defined member of module `"mod"` whose conversion
succeeds. -/
def memF : Member := ⟨"f", true, "mod", .returns [("description", "df")], true⟩

/-- Fixture: a locally defined member of module `"mod"` whose conversion
raises. -/
def memG : Member := ⟨"g", true, "mod", .raises, true⟩

/-- Fixture: a member imported into module `"mod"` from module `"other"`. -/
def memH : Member := ⟨"h", true, "other", .returns [("description", "dh")], true⟩

/-- Fixture: an environment where file `"dir/mod.py"` loads to members
`f`, `g`, `h` and every other load fails. -/
def envMod : Env :=
  ⟨fun _ => false, fun p => p == "dir/mod.py", fun _ => [],
    fun fp => if fp = "dir/mod.py" then .ok [memF, memG, memH] else .error "load failure"⟩

/-- Fixture: an environment where `"bad.py"` exists as a file but fails to
load as a module. -/
def envFail : Env :=
  ⟨fun _ => false, fun p => p == "bad.py", fun _ => [],
    fun _ => .error "syntax error"⟩

/-- Fixture: a registry whose single tool is named like the existing path
`"dir/mod.py"` of `envMod`. -/
def regPath : ToolRegistry :=
  ToolRegistry.init.register_tool "dir/mod.py" "p" "" none
    (.returns [("description", "d")]) true true

/-- The `Tool` record built by a successful registration: the produced
schema extended with the `tool_path` entry, the given code and tags. -/
def freshTool (n p c : String) (tags : Option (List String))
    (conv : ConvOutcome) (w : Bool) : Tool :=
  { name := n, path := p, schemas := dictInsert (make_schema conv w) "tool_path" p,
    code := c, tags := tags.getD [] }

/-- The character list of the literal `"metagpt"`. -/
def mgChars : List Char := ['m', 'e', 't', 'a', 'g', 'p', 't']

theorem dictLookup_insert {α : Type} (d : List (String × α)) (k k' : String) (v : α) :
    dictLookup (dictInsert d k v) k' = if k = k' then some v else dictLookup d k' := by
  induction d with
  | nil => by_cases h : k = k' <;> simp [dictInsert, dictLookup, h]
  | cons p rest ih =>
    obtain ⟨k₀, v₀⟩ := p
    by_cases h₀ : k₀ = k <;> by_cases h₁ : k = k' <;>
      simp_all [dictInsert, dictLookup]

theorem dictLookup_insert_self {α : Type} (d : List (String × α)) (k : String) (v : α) :
    dictLookup (dictInsert d k v) k = some v := by
  simp [dictLookup_insert]

theorem dictLookup_insert_ne {α : Type} (d : List (String × α)) (k k' : String) (v : α)
    (h : k ≠ k') : dictLookup (dictInsert d k v) k' = dictLookup d k' := by
  simp [dictLookup_insert, h]

theorem register_tool_skip (r : ToolRegistry) (n p c : String)
    (tags : Option (List String)) (conv : ConvOutcome) (w sh : Bool)
    (h : r.has_tool n = true) : r.register_tool n p c tags conv w sh = r := by
  simp [ToolRegistry.register_tool, h]

theorem register_tool_abort (r : ToolRegistry) (n p c : String)
    (tags : Option (List String)) (conv : ConvOutcome) (w sh : Bool)
    (h : make_schema conv w = []) : r.register_tool n p c tags conv w sh = r := by
  by_cases hh : r.has_tool n = true <;> simp [ToolRegistry.register_tool, hh, h]

theorem register_tool_fresh (r : ToolRegistry) (n p c : String)
    (tags : Option (List String)) (conv : ConvOutcome) (w sh : Bool)
    (h : r.has_tool n = false) (hs : make_schema conv w ≠ []) :
    r.register_tool n p c tags conv w sh =
      { tools := dictInsert r.tools n (freshTool n p c tags conv w),
        tools_by_tags :=
          (tags.getD []).foldl
            (fun tbt tag => tagIndexAdd tbt tag n (freshTool n p c tags conv w))
            r.tools_by_tags } := by
  simp [ToolRegistry.register_tool, h, freshTool, List.isEmpty_iff, hs]

theorem has_tool_eq_isSome (r : ToolRegistry) (k : String) :
    r.has_tool k = (r.get_tool k).isSome := rfl

theorem tagIndexAdd_get_self (tbt : List (String × List (String × Tool)))
    (tag n : String) (tool : Tool) :
    (dictLookup (tagIndexAdd tbt tag n tool) tag).getD [] =
      dictInsert ((dictLookup tbt tag).getD []) n tool := by
  simp [tagIndexAdd, dictLookup_insert_self]

theorem tagIndexAdd_get_ne (tbt : List (String × List (String × Tool)))
    (tag t n : String) (tool : Tool) (h : tag ≠ t) :
    dictLookup (tagIndexAdd tbt tag n tool) t = dictLookup tbt t := by
  simp [tagIndexAdd, dictLookup_insert_ne _ _ _ _ h]

theorem foldTag_lookup_ne (n : String) (tool : Tool) (name' : String) (h : name' ≠ n) :
    ∀ (tags : List String) (tbt : List (String × List (String × Tool))) (t : String),
      dictLookup
        ((dictLookup (tags.foldl (fun a tag => tagIndexAdd a tag n tool) tbt) t).getD [])
        name' =
      dictLookup ((dictLookup tbt t).getD []) name' := by
  intro tags
  induction tags with
  | nil => intro tbt t; rfl
  | cons tg tgs ih =>
    intro tbt t
    rw [List.foldl_cons, ih]
    by_cases htg : tg = t
    · subst htg
      rw [tagIndexAdd_get_self]
      exact dictLookup_insert_ne _ _ _ _ (Ne.symm h)
    · rw [tagIndexAdd_get_ne _ _ _ _ _ htg]

theorem foldTag_lookup_persist (n : String) (tool : Tool) (t : String) :
    ∀ (tags : List String) (tbt : List (String × List (String × Tool))),
      dictLookup ((dictLookup tbt t).getD []) n = some tool →
      dictLookup
        ((dictLookup (tags.foldl (fun a tag => tagIndexAdd a tag n tool) tbt) t).getD [])
        n = some tool := by
  intro tags
  induction tags with
  | nil => intro tbt h; exact h
  | cons tg tgs ih =>
    intro tbt h
    rw [List.foldl_cons]
    apply ih
    by_cases htg : tg = t
    · subst htg
      rw [tagIndexAdd_get_self]
      exact dictLookup_insert_self _ _ _
    · rw [tagIndexAdd_get_ne _ _ _ _ _ htg]
      exact h

theorem foldTag_lookup_mem (n : String) (tool : Tool) (t : String) :
    ∀ (tags : List String) (tbt : List (String × List (String × Tool))), t ∈ tags →
      dictLookup
        ((dictLookup (tags.foldl (fun a tag => tagIndexAdd a tag n tool) tbt) t).getD [])
        n = some tool := by
  intro tags
  induction tags with
  | nil => intro tbt ht; simp at ht
  | cons tg tgs ih =>
    intro tbt ht
    rw [List.foldl_cons]
    by_cases hmem : t ∈ tgs
    · exact ih _ hmem
    · have htg : tg = t := by
        rcases List.mem_cons.mp ht with h' | h'
        · exact h'.symm
        · exact absurd h' hmem
      subst htg
      apply foldTag_lookup_persist
      rw [tagIndexAdd_get_self]
      exact dictLookup_insert_self _ _ _

theorem foldTag_lookup_not_mem (n : String) (tool : Tool) (t : String) :
    ∀ (tags : List String) (tbt : List (String × List (String × Tool))), t ∉ tags →
      dictLookup (tags.foldl (fun a tag => tagIndexAdd a tag n tool) tbt) t =
        dictLookup tbt t := by
  intro tags
  induction tags with
  | nil => intro tbt _; rfl
  | cons tg tgs ih =>
    intro tbt ht
    have htg : tg ≠ t := fun h' => ht (by rw [← h']; exact List.mem_cons_self tg tgs)
    rw [List.foldl_cons, ih _ (fun h' => ht (List.mem_cons_of_mem _ h')),
      tagIndexAdd_get_ne _ _ _ _ _ htg]

theorem register_tool_get_tool_ne (r : ToolRegistry) (n p c : String)
    (tags : Option (List String)) (conv : ConvOutcome) (w sh : Bool)
    (name' : String) (h : name' ≠ n) :
    (r.register_tool n p c tags conv w sh).get_tool name' = r.get_tool name' := by
  by_cases hh : r.has_tool n = true
  · rw [register_tool_skip _ _ _ _ _ _ _ _ hh]
  · by_cases hs : make_schema conv w = []
    · rw [register_tool_abort _ _ _ _ _ _ _ _ hs]
    · rw [register_tool_fresh _ _ _ _ _ _ _ _ (by simpa using hh) hs]
      simp [ToolRegistry.get_tool, dictLookup_insert_ne _ _ _ _ (Ne.symm h)]

theorem register_tool_has_tool_ne (r : ToolRegistry) (n p c : String)
    (tags : Option (List String)) (conv : ConvOutcome) (w sh : Bool)
    (name' : String) (h : name' ≠ n) :
    (r.register_tool n p c tags conv w sh).has_tool name' = r.has_tool name' := by
  rw [has_tool_eq_isSome, has_tool_eq_isSome,
    register_tool_get_tool_ne _ _ _ _ _ _ _ _ _ h]

theorem register_tool_tag_lookup_ne (r : ToolRegistry) (n p c : String)
    (tags : Option (List String)) (conv : ConvOutcome) (w sh : Bool)
    (name' : String) (h : name' ≠ n) (t : String) :
    dictLookup ((r.register_tool n p c tags conv w sh).get_tools_by_tag t) name' =
      dictLookup (r.get_tools_by_tag t) name' := by
  by_cases hh : r.has_tool n = true
  · rw [register_tool_skip _ _ _ _ _ _ _ _ hh]
  · by_cases hs : make_schema conv w = []
    · rw [register_tool_abort _ _ _ _ _ _ _ _ hs]
    · rw [register_tool_fresh _ _ _ _ _ _ _ _ (by simpa using hh) hs]
      exact foldTag_lookup_ne _ _ _ h _ _ _

theorem tagConsistent_init : tagConsistent ToolRegistry.init := by
  constructor
  · intro tag name tool h
    simp [ToolRegistry.get_tools_by_tag, ToolRegistry.init, dictLookup] at h
  · intro name tool h
    simp [ToolRegistry.get_tool, ToolRegistry.init, dictLookup] at h

theorem register_tool_get_tool_self (r : ToolRegistry) (n p c : String)
    (tags : Option (List String)) (conv : ConvOutcome) (w sh : Bool)
    (h : r.has_tool n = false) (hs : make_schema conv w ≠ []) :
    (r.register_tool n p c tags conv w sh).get_tool n =
      some (freshTool n p c tags conv w) := by
  rw [register_tool_fresh _ _ _ _ _ _ _ _ h hs]
  simp [ToolRegistry.get_tool, dictLookup_insert_self]

theorem register_tool_new_tool (r : ToolRegistry) (n p c : String)
    (tags : Option (List String)) (conv : ConvOutcome) (w sh : Bool)
    (name : String) (t : Tool)
    (hl : dictLookup (r.register_tool n p c tags conv w sh).tools name = some t) :
    dictLookup r.tools name = some t ∨ (t.code = c ∧ t.path = p) := by
  by_cases hh : r.has_tool n = true
  · rw [register_tool_skip _ _ _ _ _ _ _ _ hh] at hl
    exact Or.inl hl
  · by_cases hs : make_schema conv w = []
    · rw [register_tool_abort _ _ _ _ _ _ _ _ hs] at hl
      exact Or.inl hl
    · rw [register_tool_fresh _ _ _ _ _ _ _ _ (by simpa using hh) hs] at hl
      dsimp only at hl
      by_cases hn : name = n
      · subst hn
        rw [dictLookup_insert_self] at hl
        have ht : t = freshTool name p c tags conv w := (Option.some.inj hl).symm
        subst ht
        exact Or.inr ⟨rfl, rfl⟩
      · rw [dictLookup_insert_ne _ _ _ _ (Ne.symm hn)] at hl
        exact Or.inl hl

theorem register_tool_preserves_tagConsistent (r : ToolRegistry) (n p c : String)
    (tags : Option (List String)) (conv : ConvOutcome) (w sh : Bool)
    (hc : tagConsistent r) :
    tagConsistent (r.register_tool n p c tags conv w sh) := by
  by_cases hh : r.has_tool n = true
  · rw [register_tool_skip _ _ _ _ _ _ _ _ hh]
    exact hc
  · by_cases hs : make_schema conv w = []
    · rw [register_tool_abort _ _ _ _ _ _ _ _ hs]
      exact hc
    · have hh' : r.has_tool n = false := by simpa using hh
      rw [register_tool_fresh _ _ _ _ _ _ _ _ hh' hs]
      constructor
      · intro tag name t hl
        simp only [ToolRegistry.get_tools_by_tag, ToolRegistry.get_tool] at hl ⊢
        by_cases hn : name = n
        · subst hn
          by_cases hmem : tag ∈ tags.getD []
          · rw [foldTag_lookup_mem _ (freshTool name p c tags conv w) _ _ _ hmem] at hl
            have ht : t = freshTool name p c tags conv w := (Option.some.inj hl).symm
            subst ht
            exact ⟨hmem, dictLookup_insert_self _ _ _⟩
          · rw [foldTag_lookup_not_mem _ (freshTool name p c tags conv w) _ _ _ hmem] at hl
            have := (hc.1 tag name t hl).2
            rw [ToolRegistry.get_tool] at this
            rw [has_tool_eq_isSome, ToolRegistry.get_tool] at hh'
            rw [this] at hh'
            simp at hh'
        · rw [foldTag_lookup_ne _ _ _ hn] at hl
          have h' := hc.1 tag name t hl
          rw [ToolRegistry.get_tool] at h'
          exact ⟨h'.1, by rw [dictLookup_insert_ne _ _ _ _ (Ne.symm hn)]; exact h'.2⟩
      · intro name t hg tag htag
        simp only [ToolRegistry.get_tools_by_tag, ToolRegistry.get_tool] at hg ⊢
        by_cases hn : name = n
        · subst hn
          rw [dictLookup_insert_self] at hg
          have ht : t = freshTool name p c tags conv w := (Option.some.inj hg).symm
          subst ht
          exact foldTag_lookup_mem _ _ _ _ _ htag
        · rw [dictLookup_insert_ne _ _ _ _ (Ne.symm hn)] at hg
          rw [foldTag_lookup_ne _ _ _ hn]
          have := hc.2 name t hg tag htag
          rw [ToolRegistry.get_tools_by_tag] at this
          exact this

theorem rtffLoop_fst_tagConsistent (modName : String) :
    ∀ (ms : List Member) (reg : ToolRegistry) (acc : List (String × Option Tool))
      (fp : String), tagConsistent reg →
      tagConsistent (rtffLoop modName reg acc fp ms).1 := by
  intro ms
  induction ms with
  | nil => intro reg acc fp hc; exact hc
  | cons m ms ih =>
    intro reg acc fp hc
    by_cases hk : memberKept modName m = true
    · simp only [rtffLoop, hk, if_true]
      exact ih _ _ _ (register_tool_preserves_tagConsistent _ _ _ _ _ _ _ _ hc)
    · simp only [rtffLoop, hk, if_false, Bool.false_eq_true]
      exact ih _ _ _ hc

theorem register_tools_from_file_ok_tagConsistent (env : Env) (reg : ToolRegistry)
    (fp : String) (res : ToolRegistry × List (String × Option Tool))
    (h : register_tools_from_file env reg fp = .ok res) (hc : tagConsistent reg) :
    tagConsistent res.1 := by
  unfold register_tools_from_file load_module_from_file at h
  cases hload : env.loadResult fp with
  | error e => rw [hload] at h; cases h
  | ok mems =>
    rw [hload] at h
    injection h with h'
    subst h'
    exact rtffLoop_fst_tagConsistent _ _ _ _ _ hc

theorem rtfpLoop_ok_tagConsistent (env : Env) :
    ∀ (fs : List String) (reg : ToolRegistry) (acc : List (String × Option Tool))
      (res : ToolRegistry × List (String × Option Tool)),
      rtfpLoop env reg acc fs = .ok res → tagConsistent reg → tagConsistent res.1 := by
  intro fs
  induction fs with
  | nil =>
    intro reg acc res h hc
    unfold rtfpLoop at h
    injection h with h'
    subst h'
    exact hc
  | cons f fs ih =>
    intro reg acc res h hc
    unfold rtfpLoop at h
    cases hr : register_tools_from_file env reg f with
    | error e => rw [hr] at h; cases h
    | ok pr =>
      rw [hr] at h
      obtain ⟨reg', m⟩ := pr
      exact ih _ _ _ h (register_tools_from_file_ok_tagConsistent _ _ _ _ hr hc)

theorem register_tools_from_path_ok_tagConsistent (env : Env) (reg : ToolRegistry)
    (path : String) (res : ToolRegistry × List (String × Option Tool))
    (h : register_tools_from_path env reg path = .ok res) (hc : tagConsistent reg) :
    tagConsistent res.1 := by
  unfold register_tools_from_path at h
  by_cases h1 : (env.isfile path && strEndsWith path ".py") = true
  · rw [if_pos h1] at h
    exact register_tools_from_file_ok_tagConsistent _ _ _ _ h hc
  · rw [if_neg h1] at h
    by_cases h2 : env.isdir path = true
    · rw [if_pos h2] at h
      exact rtfpLoop_ok_tagConsistent _ _ _ _ _ h hc
    · rw [if_neg h2] at h
      injection h with h'
      subst h'
      exact hc

theorem validateLoop_ok_tagConsistent (env : Env) :
    ∀ (keys : List String) (reg : ToolRegistry) (acc : List (String × Option Tool))
      (warns : List String)
      (res : ToolRegistry × List (String × Option Tool) × List String),
      validateLoop env reg acc warns keys = .ok res → tagConsistent reg →
      tagConsistent res.1 := by
  intro keys
  induction keys with
  | nil =>
    intro reg acc warns res h hc
    unfold validateLoop at h
    injection h with h'
    subst h'
    exact hc
  | cons key rest ih =>
    intro reg acc warns res h hc
    unfold validateLoop at h
    by_cases h1 : (env.isdir key || env.isfile key) = true
    · rw [if_pos h1] at h
      cases hr : register_tools_from_path env reg key with
      | error e => rw [hr] at h; cases h
      | ok pr =>
        rw [hr] at h
        obtain ⟨reg', m⟩ := pr
        exact ih _ _ _ _ h (register_tools_from_path_ok_tagConsistent _ _ _ _ hr hc)
    · rw [if_neg h1] at h
      by_cases h2 : reg.has_tool key = true
      · rw [if_pos h2] at h
        exact ih _ _ _ _ h hc
      · rw [if_neg h2] at h
        by_cases h3 : reg.has_tool_tag key = true
        · rw [if_pos h3] at h
          exact ih _ _ _ _ h hc
        · rw [if_neg h3] at h
          exact ih _ _ _ _ h hc

theorem validate_tool_names_ok_tagConsistent (env : Env) (reg : ToolRegistry)
    (keys : List String)
    (res : ToolRegistry × List (String × Option Tool) × List String)
    (h : validate_tool_names env reg keys = .ok res) (hc : tagConsistent reg) :
    tagConsistent res.1 :=
  validateLoop_ok_tagConsistent env keys reg [] [] res h hc

theorem mg_toList : "metagpt".toList = mgChars := by decide

theorem afterLastOcc_cons (sep : List Char) (c : Char) (cs : List Char) :
    afterLastOcc sep (c :: cs) =
      match afterLastOcc sep cs with
      | some r => some r
      | none =>
        if sep.isPrefixOf (c :: cs) then some ((c :: cs).drop sep.length)
        else none := rfl

theorem afterLastOcc_cons_none (sep : List Char) (c : Char) (cs : List Char)
    (h : afterLastOcc sep (c :: cs) = none) : afterLastOcc sep cs = none := by
  cases hcs : afterLastOcc sep cs with
  | none => rfl
  | some r => simp [afterLastOcc_cons, hcs] at h

theorem afterLastOcc_drop_none (sep : List Char) :
    ∀ (cs : List Char), afterLastOcc sep cs = none →
      ∀ (k : Nat), afterLastOcc sep (cs.drop k) = none := by
  intro cs
  induction cs with
  | nil => intro h k; simpa using h
  | cons c cs ih =>
    intro h k
    cases k with
    | zero => exact h
    | succ k => exact ih (afterLastOcc_cons_none _ _ _ h) k

theorem afterLastOcc_some_none (sep : List Char) (hsep : sep ≠ []) :
    ∀ (cs r : List Char), afterLastOcc sep cs = some r → afterLastOcc sep r = none := by
  intro cs
  induction cs with
  | nil =>
    intro r h
    rw [show afterLastOcc sep [] = if sep.isEmpty then some [] else none from rfl] at h
    rw [if_neg (by simpa [List.isEmpty_iff] using hsep)] at h
    cases h
  | cons c cs ih =>
    intro r h
    cases hcs : afterLastOcc sep cs with
    | some r' =>
      simp only [afterLastOcc_cons, hcs] at h
      obtain rfl : r' = r := Option.some.inj h
      exact ih _ hcs
    | none =>
      simp only [afterLastOcc_cons, hcs] at h
      by_cases hp : sep.isPrefixOf (c :: cs) = true
      · rw [if_pos hp] at h
        obtain rfl : (c :: cs).drop sep.length = r := Option.some.inj h
        cases sep with
        | nil => exact absurd rfl hsep
        | cons s₀ st => exact afterLastOcc_drop_none _ _ hcs st.length
      · rw [if_neg hp] at h
        cases h

theorem afterLastOcc_mg_append (X : List Char) (h : afterLastOcc mgChars X = none) :
    afterLastOcc mgChars (mgChars ++ X) = some X := by
  have h1 : afterLastOcc mgChars ('t' :: X) = none := by
    simp [afterLastOcc_cons, h, show mgChars.isPrefixOf ('t' :: X) = false from rfl]
  have h2 : afterLastOcc mgChars ('p' :: 't' :: X) = none := by
    simp [afterLastOcc_cons, h1, show mgChars.isPrefixOf ('p' :: 't' :: X) = false from rfl]
  have h3 : afterLastOcc mgChars ('g' :: 'p' :: 't' :: X) = none := by
    simp [afterLastOcc_cons, h2,
      show mgChars.isPrefixOf ('g' :: 'p' :: 't' :: X) = false from rfl]
  have h4 : afterLastOcc mgChars ('a' :: 'g' :: 'p' :: 't' :: X) = none := by
    simp [afterLastOcc_cons, h3,
      show mgChars.isPrefixOf ('a' :: 'g' :: 'p' :: 't' :: X) = false from rfl]
  have h5 : afterLastOcc mgChars ('t' :: 'a' :: 'g' :: 'p' :: 't' :: X) = none := by
    simp [afterLastOcc_cons, h4,
      show mgChars.isPrefixOf ('t' :: 'a' :: 'g' :: 'p' :: 't' :: X) = false from rfl]
  have h6 : afterLastOcc mgChars ('e' :: 't' :: 'a' :: 'g' :: 'p' :: 't' :: X) = none := by
    simp [afterLastOcc_cons, h5,
      show mgChars.isPrefixOf ('e' :: 't' :: 'a' :: 'g' :: 'p' :: 't' :: X) = false from rfl]
  show afterLastOcc mgChars ('m' :: 'e' :: 't' :: 'a' :: 'g' :: 'p' :: 't' :: X) = some X
  simp only [afterLastOcc_cons, h6]
  rw [if_pos (List.isPrefixOf_iff_prefix.mpr
    (show mgChars <+: 'm' :: 'e' :: 't' :: 'a' :: 'g' :: 'p' :: 't' :: X from ⟨X, rfl⟩))]
  rfl

theorem normFilePath_idem (fp : String) : normFilePath (normFilePath fp) = normFilePath fp := by
  by_cases hc : strContainsSub fp "metagpt" = true
  · obtain ⟨r, hr⟩ : ∃ r, afterLastOcc "metagpt".toList fp.toList = some r := by
      unfold strContainsSub at hc
      exact Option.isSome_iff_exists.mp hc
    have hnone : afterLastOcc mgChars r = none := by
      rw [← mg_toList]
      exact afterLastOcc_some_none _ (by decide) _ _ hr
    have h1 : normFilePath fp = "metagpt" ++ String.mk r := by
      unfold normFilePath lastSplitPart
      rw [if_pos hc, hr]
    have htl : ("metagpt" ++ String.mk r).toList = mgChars ++ r := by
      show ("metagpt" ++ String.mk r).data = mgChars ++ r
      rw [String.data_append]
      show "metagpt".toList ++ r = mgChars ++ r
      rw [mg_toList]
    have hocc2 : afterLastOcc "metagpt".toList ("metagpt" ++ String.mk r).toList = some r := by
      rw [mg_toList, htl]
      exact afterLastOcc_mg_append r hnone
    rw [h1]
    unfold normFilePath strContainsSub lastSplitPart
    rw [hocc2]
    simp
  · unfold normFilePath
    rw [if_neg hc, if_neg hc]

theorem get_tool_eq_none_of_has_tool_false (r : ToolRegistry) (k : String)
    (h : r.has_tool k = false) : r.get_tool k = none := by
  rw [has_tool_eq_isSome] at h
  cases hg : r.get_tool k with
  | none => rfl
  | some t => rw [hg] at h; simp at h

theorem rtffLoop_fst_eq_registerMembers (modName : String) :
    ∀ (ms : List Member) (reg : ToolRegistry) (acc : List (String × Option Tool))
      (fp : String),
      (rtffLoop modName reg acc fp ms).1 =
        registerMembers (normFilePath fp) reg (ms.filter (memberKept modName)) := by
  intro ms
  induction ms with
  | nil => intro reg acc fp; rfl
  | cons m ms ih =>
    intro reg acc fp
    by_cases hk : memberKept modName m = true
    · rw [List.filter_cons_of_pos hk]
      simp only [rtffLoop, hk, if_true, registerMembers]
      rw [ih, normFilePath_idem]
    · rw [List.filter_cons_of_neg hk]
      simp only [rtffLoop, hk, if_false, Bool.false_eq_true]
      exact ih _ _ _

theorem registerMembers_new_tool (fp : String) :
    ∀ (ms : List Member) (reg : ToolRegistry) (name : String) (t : Tool),
      dictLookup (registerMembers fp reg ms).tools name = some t →
      dictLookup reg.tools name = some t ∨ (t.code = "" ∧ t.path = fp) := by
  intro ms
  induction ms with
  | nil => intro reg name t h; exact Or.inl h
  | cons m ms ih =>
    intro reg name t h
    simp only [registerMembers] at h
    rcases ih _ _ _ h with h' | h'
    · rcases register_tool_new_tool _ _ _ _ _ _ _ _ _ _ h' with h'' | h''
      · exact Or.inl h''
      · exact Or.inr h''
    · exact Or.inr h'

theorem rtffLoop_acc_lookup_isSome (modName : String) :
    ∀ (ms : List Member) (reg : ToolRegistry) (acc : List (String × Option Tool))
      (fp name : String), (dictLookup acc name).isSome = true →
      (dictLookup (rtffLoop modName reg acc fp ms).2 name).isSome = true := by
  intro ms
  induction ms with
  | nil => intro reg acc fp name h; exact h
  | cons m ms ih =>
    intro reg acc fp name h
    by_cases hk : memberKept modName m = true
    · simp only [rtffLoop, hk, if_true]
      apply ih
      rw [dictLookup_insert]
      by_cases hn : m.name = name
      · simp [hn]
      · rw [if_neg hn]
        exact h
    · simp only [rtffLoop, hk, if_false, Bool.false_eq_true]
      exact ih _ _ _ _ h

theorem rtffLoop_mem_isSome (modName : String) :
    ∀ (ms : List Member) (reg : ToolRegistry) (acc : List (String × Option Tool))
      (fp : String) (m : Member), m ∈ ms → memberKept modName m = true →
      (dictLookup (rtffLoop modName reg acc fp ms).2 m.name).isSome = true := by
  intro ms
  induction ms with
  | nil => intro reg acc fp m hm _; simp at hm
  | cons m' ms ih =>
    intro reg acc fp m hm hk
    rcases List.mem_cons.mp hm with rfl | hm'
    · simp only [rtffLoop, hk, if_true]
      apply rtffLoop_acc_lookup_isSome
      rw [dictLookup_insert_self]
      rfl
    · by_cases hk' : memberKept modName m' = true
      · simp only [rtffLoop, hk', if_true]
        exact ih _ _ _ _ hm' hk
      · simp only [rtffLoop, hk', if_false, Bool.false_eq_true]
        exact ih _ _ _ _ hm' hk

theorem rtffLoop_acc_sync (modName : String) :
    ∀ (ms : List Member) (reg : ToolRegistry) (acc : List (String × Option Tool))
      (fp : String),
      (∀ name v, dictLookup acc name = some v → v = reg.get_tool name) →
      ∀ name v, dictLookup (rtffLoop modName reg acc fp ms).2 name = some v →
        v = (rtffLoop modName reg acc fp ms).1.get_tool name := by
  intro ms
  induction ms with
  | nil => intro reg acc fp hinv name v h; exact hinv name v h
  | cons m ms ih =>
    intro reg acc fp hinv name v h
    by_cases hk : memberKept modName m = true
    · simp only [rtffLoop, hk, if_true] at h ⊢
      refine ih _ _ _ ?_ name v h
      intro name' v' h'
      rw [dictLookup_insert] at h'
      by_cases hn : m.name = name'
      · rw [if_pos hn] at h'
        subst hn
        exact (Option.some.inj h').symm
      · rw [if_neg hn] at h'
        rw [register_tool_get_tool_ne _ _ _ _ _ _ _ _ _ (fun he => hn he.symm)]
        exact hinv name' v' h'
    · simp only [rtffLoop, hk, if_false, Bool.false_eq_true] at h ⊢
      exact ih _ _ _ hinv name v h

theorem rtffLoop_acc_stable (modName : String) :
    ∀ (ms : List Member) (name : String),
      (∀ m ∈ ms, memberKept modName m = true → m.name ≠ name) →
      ∀ (reg : ToolRegistry) (acc : List (String × Option Tool)) (fp : String),
        dictLookup (rtffLoop modName reg acc fp ms).2 name = dictLookup acc name := by
  intro ms
  induction ms with
  | nil => intro name _ reg acc fp; rfl
  | cons m ms ih =>
    intro name hn reg acc fp
    by_cases hk : memberKept modName m = true
    · simp only [rtffLoop, hk, if_true]
      rw [ih name (fun m' hm' hk' => hn m' (List.mem_cons_of_mem _ hm') hk'),
        dictLookup_insert_ne _ _ _ _ (hn m (List.mem_cons_self _ _) hk)]
    · simp only [rtffLoop, hk, if_false, Bool.false_eq_true]
      exact ih name (fun m' hm' hk' => hn m' (List.mem_cons_of_mem _ hm') hk') _ _ _

theorem rtffLoop_entry_prev (modName : String) :
    ∀ (ms : List Member) (reg : ToolRegistry) (acc : List (String × Option Tool))
      (fp : String) (m : Member),
      ((ms.filter (memberKept modName)).map Member.name).Nodup →
      m ∈ ms → memberKept modName m = true → reg.has_tool m.name = true →
      dictLookup (rtffLoop modName reg acc fp ms).2 m.name =
        some (reg.get_tool m.name) := by
  intro ms
  induction ms with
  | nil => intro reg acc fp m _ hm; simp at hm
  | cons m' ms ih =>
    intro reg acc fp m hnd hm hk hht
    rcases List.mem_cons.mp hm with rfl | hm'
    · simp only [rtffLoop, hk, if_true]
      rw [List.filter_cons_of_pos hk, List.map_cons] at hnd
      have h1 := List.nodup_cons.mp hnd
      have hne : ∀ m' ∈ ms, memberKept modName m' = true → m'.name ≠ m.name := by
        intro m' hm' hk' he
        exact h1.1 (he ▸ List.mem_map.mpr ⟨m', List.mem_filter.mpr ⟨hm', hk'⟩, rfl⟩)
      rw [register_tool_skip _ _ _ _ _ _ _ _ hht]
      rw [rtffLoop_acc_stable modName ms m.name hne reg _ _]
      exact dictLookup_insert_self _ _ _
    · by_cases hk' : memberKept modName m' = true
      · simp only [rtffLoop, hk', if_true]
        rw [List.filter_cons_of_pos hk', List.map_cons] at hnd
        have h1 := List.nodup_cons.mp hnd
        have hmem : m.name ∈ (ms.filter (memberKept modName)).map Member.name :=
          List.mem_map.mpr ⟨m, List.mem_filter.mpr ⟨hm', hk⟩, rfl⟩
        have hne : m'.name ≠ m.name := fun he => h1.1 (he.symm ▸ hmem)
        rw [← register_tool_get_tool_ne reg m'.name (normFilePath fp) "" none m'.conv
          m'.writeOk true m.name (Ne.symm hne)]
        refine ih _ _ _ _ h1.2 hm' hk ?_
        rw [register_tool_has_tool_ne _ _ _ _ _ _ _ _ _ (Ne.symm hne)]
        exact hht
      · simp only [rtffLoop, hk', if_false, Bool.false_eq_true]
        rw [List.filter_cons_of_neg hk'] at hnd
        exact ih _ _ _ _ hnd hm' hk hht

theorem rtffLoop_entry_aborted (modName : String) :
    ∀ (ms : List Member) (reg : ToolRegistry) (acc : List (String × Option Tool))
      (fp : String) (m : Member),
      ((ms.filter (memberKept modName)).map Member.name).Nodup →
      m ∈ ms → memberKept modName m = true → reg.has_tool m.name = false →
      make_schema m.conv m.writeOk = [] →
      dictLookup (rtffLoop modName reg acc fp ms).2 m.name = some none := by
  intro ms
  induction ms with
  | nil => intro reg acc fp m _ hm; simp at hm
  | cons m' ms ih =>
    intro reg acc fp m hnd hm hk hht hsch
    rcases List.mem_cons.mp hm with rfl | hm'
    · simp only [rtffLoop, hk, if_true]
      rw [List.filter_cons_of_pos hk, List.map_cons] at hnd
      have h1 := List.nodup_cons.mp hnd
      have hne : ∀ m' ∈ ms, memberKept modName m' = true → m'.name ≠ m.name := by
        intro m' hm' hk' he
        exact h1.1 (he ▸ List.mem_map.mpr ⟨m', List.mem_filter.mpr ⟨hm', hk'⟩, rfl⟩)
      rw [register_tool_abort _ _ _ _ _ _ _ _ hsch]
      rw [rtffLoop_acc_stable modName ms m.name hne reg _ _]
      rw [dictLookup_insert_self, get_tool_eq_none_of_has_tool_false _ _ hht]
    · by_cases hk' : memberKept modName m' = true
      · simp only [rtffLoop, hk', if_true]
        rw [List.filter_cons_of_pos hk', List.map_cons] at hnd
        have h1 := List.nodup_cons.mp hnd
        have hmem : m.name ∈ (ms.filter (memberKept modName)).map Member.name :=
          List.mem_map.mpr ⟨m, List.mem_filter.mpr ⟨hm', hk⟩, rfl⟩
        have hne : m'.name ≠ m.name := fun he => h1.1 (he.symm ▸ hmem)
        refine ih _ _ _ _ h1.2 hm' hk ?_ hsch
        rw [register_tool_has_tool_ne _ _ _ _ _ _ _ _ _ (Ne.symm hne)]
        exact hht
      · simp only [rtffLoop, hk', if_false, Bool.false_eq_true]
        rw [List.filter_cons_of_neg hk'] at hnd
        exact ih _ _ _ _ hnd hm' hk hht hsch

theorem register_tools_from_file_ok (env : Env) (reg : ToolRegistry) (fp : String)
    (mems : List Member) (h : env.loadResult fp = .ok mems) :
    register_tools_from_file env reg fp =
      .ok (rtffLoop (moduleNameOf fp) reg [] fp mems) := by
  unfold register_tools_from_file load_module_from_file
  rw [h]

theorem validateLoop_eq_resolveLoop (env : Env) :
    ∀ (keys : List String) (reg : ToolRegistry) (acc : List (String × Option Tool))
      (warns : List String),
      validateLoop env reg acc warns keys =
        resolveIdentifiersLoop env reg acc warns keys := by
  intro keys
  induction keys with
  | nil => intro reg acc warns; rfl
  | cons key rest ih =>
    intro reg acc warns
    by_cases h1 : (env.isdir key || env.isfile key) = true
    · have h1' : (env.isfile key || env.isdir key) = true := by
        rw [Bool.or_comm]
        exact h1
      simp only [validateLoop, resolveIdentifiersLoop, h1, h1', if_true]
      cases hr : register_tools_from_path env reg key with
      | error e => rfl
      | ok pr =>
        obtain ⟨reg', m⟩ := pr
        exact ih _ _ _
    · have h1' : ¬(env.isfile key || env.isdir key) = true := by
        rw [Bool.or_comm]
        exact h1
      by_cases h2 : reg.has_tool key = true
      · simp only [validateLoop, resolveIdentifiersLoop, if_neg h1, if_neg h1', if_pos h2]
        exact ih _ _ _
      · by_cases h3 : reg.has_tool_tag key = true
        · simp only [validateLoop, resolveIdentifiersLoop, if_neg h1, if_neg h1',
            if_neg h2, if_pos h3]
          exact ih _ _ _
        · simp only [validateLoop, resolveIdentifiersLoop, if_neg h1, if_neg h1',
            if_neg h2, if_neg h3]
          exact ih _ _ _

theorem validate_path_branch (env : Env) (reg : ToolRegistry) (key : String)
    (rest : List String) (h1 : (env.isdir key || env.isfile key) = true) :
    validate_tool_names env reg (key :: rest) =
      match register_tools_from_path env reg key with
      | .error e => .error e
      | .ok (reg', m) => validateLoop env reg' (dictUpdate [] m) [] rest := by
  unfold validate_tool_names
  simp only [validateLoop, h1, if_true]

/-- C1: For every registry state, calling `register_tool` with a name already
present in the primary mapping is a silent no-op: the stored Tool, the tag
index and the rest of the registry are left exactly as they were, whatever
paths, tags, code or converter outcomes the second call passes. -/
theorem c1_duplicate_registration_is_noop (r : ToolRegistry) (n p c : String)
    (tags : Option (List String)) (conv : ConvOutcome) (w sh : Bool)
    (h : r.has_tool n = true) : r.register_tool n p c tags conv w sh = r :=
  register_tool_skip r n p c tags conv w sh h

/-- Witness for C1: re-registering `"t"` in `regOne` with different path,
code, tags and converter outcome leaves the registry untouched. -/
theorem c1_witness :
    regOne.has_tool "t" = true ∧
      regOne.register_tool "t" "other/path" "code" (some ["new"]) .raises false false =
        regOne :=
  ⟨by decide,
    c1_duplicate_registration_is_noop regOne "t" "other/path" "code" (some ["new"])
      .raises false false (by decide)⟩

/-- C2: Tag-index consistency — every tool listed under a tag carries that tag
and coincides with the primary store's entry, and every registered tool is
listed under each of its tags — holds initially and is preserved by
`register_tool` and by every operation built on it (file discovery, path
discovery, identifier resolution). -/
theorem c2_tag_index_consistent_invariant :
    tagConsistent ToolRegistry.init ∧
    (∀ (r : ToolRegistry) (n p c : String) (tags : Option (List String))
      (conv : ConvOutcome) (w sh : Bool), tagConsistent r →
      tagConsistent (r.register_tool n p c tags conv w sh)) ∧
    (∀ (env : Env) (reg : ToolRegistry) (fp : String)
      (res : ToolRegistry × List (String × Option Tool)),
      register_tools_from_file env reg fp = .ok res → tagConsistent reg →
      tagConsistent res.1) ∧
    (∀ (env : Env) (reg : ToolRegistry) (path : String)
      (res : ToolRegistry × List (String × Option Tool)),
      register_tools_from_path env reg path = .ok res → tagConsistent reg →
      tagConsistent res.1) ∧
    (∀ (env : Env) (reg : ToolRegistry) (keys : List String)
      (res : ToolRegistry × List (String × Option Tool) × List String),
      validate_tool_names env reg keys = .ok res → tagConsistent reg →
      tagConsistent res.1) :=
  ⟨tagConsistent_init,
    fun r n p c tags conv w sh hc =>
      register_tool_preserves_tagConsistent r n p c tags conv w sh hc,
    fun env reg fp res h hc =>
      register_tools_from_file_ok_tagConsistent env reg fp res h hc,
    fun env reg path res h hc =>
      register_tools_from_path_ok_tagConsistent env reg path res h hc,
    fun env reg keys res h hc =>
      validate_tool_names_ok_tagConsistent env reg keys res h hc⟩

/-- Witness for C2: registering one tagged tool into the fresh registry
yields a tag-consistent registry. -/
theorem c2_witness :
    tagConsistent (ToolRegistry.init.register_tool "t" "p" "" (some ["tg"])
      (.returns [("description", "d")]) true true) :=
  c2_tag_index_consistent_invariant.2.1 ToolRegistry.init "t" "p" "" (some ["tg"])
    (.returns [("description", "d")]) true true
    c2_tag_index_consistent_invariant.1

/-- C3: `validate_tool_names` resolves an identifier list exactly as the
spec's resolver describes — existing filesystem path first (discovery results
merged), then exact registered tool name, then exact known tag, otherwise a
warning and the loop continues — with the result a union keyed by tool name;
and an identifier that is both an existing path and a registered tool name is
resolved through the path-discovery branch. -/
theorem c3_resolver_precedence :
    (∀ (env : Env) (reg : ToolRegistry) (keys : List String),
      validate_tool_names env reg keys = resolveIdentifiers env reg keys) ∧
    (∀ (env : Env) (reg : ToolRegistry) (key : String) (rest : List String),
      (env.isdir key || env.isfile key) = true → reg.has_tool key = true →
      validate_tool_names env reg (key :: rest) =
        match register_tools_from_path env reg key with
        | .error e => .error e
        | .ok (reg', m) => validateLoop env reg' (dictUpdate [] m) [] rest) :=
  ⟨fun env reg keys => validateLoop_eq_resolveLoop env keys reg [] [],
    fun env reg key rest h1 _ => validate_path_branch env reg key rest h1⟩

/-- Witness for C3: the equivalence evaluated on a mixed name/tag/invalid
list, and the path branch taken for `"dir/mod.py"`, which is simultaneously
an existing file of `envMod` and a registered tool name of `regPath`. -/
theorem c3_witness :
    (validate_tool_names envMod regOne ["t", "tg", "nope"] =
      resolveIdentifiers envMod regOne ["t", "tg", "nope"]) ∧
    (envMod.isdir "dir/mod.py" || envMod.isfile "dir/mod.py") = true ∧
    regPath.has_tool "dir/mod.py" = true ∧
    validate_tool_names envMod regPath ["dir/mod.py"] =
      match register_tools_from_path envMod regPath "dir/mod.py" with
      | .error e => .error e
      | .ok (reg', m) => validateLoop envMod reg' (dictUpdate [] m) [] [] :=
  ⟨c3_resolver_precedence.1 envMod regOne ["t", "tg", "nope"], by decide, by decide,
    c3_resolver_precedence.2 envMod regPath "dir/mod.py" [] (by decide) (by decide)⟩

/-- C4: Registering a fresh name whose converter raises or returns an empty
schema aborts atomically: the registry is unchanged, `has_tool` stays false,
`get_tool` is absent, and (in a tag-consistent registry) no tag-index entry
for that name exists. -/
theorem c4_conversion_failure_aborts_atomically (r : ToolRegistry) (n p c : String)
    (tags : Option (List String)) (conv : ConvOutcome) (w sh : Bool)
    (hfresh : r.has_tool n = false) (hc : tagConsistent r)
    (hconv : conv = .raises ∨ conv = .returns []) :
    r.register_tool n p c tags conv w sh = r ∧
    (r.register_tool n p c tags conv w sh).has_tool n = false ∧
    (r.register_tool n p c tags conv w sh).get_tool n = none ∧
    ∀ tag, dictLookup ((r.register_tool n p c tags conv w sh).get_tools_by_tag tag) n =
      none := by
  have hsch : make_schema conv w = [] := by
    rcases hconv with rfl | rfl
    · rfl
    · simp [make_schema]
  have heq := register_tool_abort r n p c tags conv w sh hsch
  refine ⟨heq, by rw [heq]; exact hfresh,
    by rw [heq]; exact get_tool_eq_none_of_has_tool_false r n hfresh, ?_⟩
  intro tag
  rw [heq]
  cases hl : dictLookup (r.get_tools_by_tag tag) n with
  | none => rfl
  | some t =>
    have h2 := (hc.1 tag n t hl).2
    rw [get_tool_eq_none_of_has_tool_false r n hfresh] at h2
    cases h2

/-- Witness for C4: a raising converter for fresh name `"g"` with tag `"tg"`
leaves the empty registry with no trace of `"g"`. -/
theorem c4_witness :
    ToolRegistry.init.has_tool "g" = false ∧
    ToolRegistry.init.register_tool "g" "p" "" (some ["tg"]) .raises true true =
      ToolRegistry.init ∧
    (ToolRegistry.init.register_tool "g" "p" "" (some ["tg"])
      .raises true true).has_tool "g" = false ∧
    (ToolRegistry.init.register_tool "g" "p" "" (some ["tg"])
      .raises true true).get_tool "g" = none ∧
    dictLookup ((ToolRegistry.init.register_tool "g" "p" "" (some ["tg"])
      .raises true true).get_tools_by_tag "tg") "g" = none := by
  have h := c4_conversion_failure_aborts_atomically ToolRegistry.init "g" "p" ""
    (some ["tg"]) .raises true true (by decide) tagConsistent_init (Or.inl rfl)
  exact ⟨by decide, h.1, h.2.1, h.2.2.1, h.2.2.2 "tg"⟩

/-- C5: For a fresh name whose converter output is nonempty (and whose schema
file write succeeds), the `ToolSchema` shape-validation outcome cannot change
anything: the registry is identical for any validation result, and the tool
is stored under its name with the produced schema. -/
theorem c5_shape_validation_nonfatal (r : ToolRegistry) (n p c : String)
    (tags : Option (List String)) (s : List (String × String)) (sh : Bool)
    (h : r.has_tool n = false) (hs : s ≠ []) :
    r.register_tool n p c tags (.returns s) true sh =
      r.register_tool n p c tags (.returns s) true true ∧
    (r.register_tool n p c tags (.returns s) true sh).get_tool n =
      some (freshTool n p c tags (.returns s) true) := by
  have hs' : make_schema (.returns s) true ≠ [] := by simpa [make_schema] using hs
  exact ⟨rfl, register_tool_get_tool_self _ _ _ _ _ _ _ _ h hs'⟩

/-- Witness for C5: with a failed shape validation (`sh = false`) the tool
`"t"` is stored exactly as with a successful one. -/
theorem c5_witness :
    ToolRegistry.init.has_tool "t" = false ∧
    ([("description", "d")] : List (String × String)) ≠ [] ∧
    (ToolRegistry.init.register_tool "t" "p" "" none
        (.returns [("description", "d")]) true false =
      ToolRegistry.init.register_tool "t" "p" "" none
        (.returns [("description", "d")]) true true ∧
    (ToolRegistry.init.register_tool "t" "p" "" none
        (.returns [("description", "d")]) true false).get_tool "t" =
      some (freshTool "t" "p" "" none (.returns [("description", "d")]) true)) :=
  ⟨by decide, by decide,
    c5_shape_validation_nonfatal ToolRegistry.init "t" "p" "" none
      [("description", "d")] false (by decide) (by decide)⟩

/-- C6: File discovery registers exactly the class/function members whose
declaring module is the loaded module itself — the fold of `register_tool`
over the filtered member list, with empty captured source text and the
normalised file path — so every tool newly present afterwards has empty code
and that path, and imported symbols contribute nothing. -/
theorem c6_file_discovery_registers_local_members (env : Env) (reg : ToolRegistry)
    (fp : String) (mems : List Member) (h : env.loadResult fp = .ok mems) :
    ∃ res, register_tools_from_file env reg fp = .ok res ∧
      res.1 = registerMembers (normFilePath fp) reg
        (mems.filter (memberKept (moduleNameOf fp))) ∧
      (∀ name t, dictLookup res.1.tools name = some t →
        dictLookup reg.tools name = some t ∨ (t.code = "" ∧ t.path = normFilePath fp)) := by
  refine ⟨rtffLoop (moduleNameOf fp) reg [] fp mems,
    register_tools_from_file_ok env reg fp mems h,
    rtffLoop_fst_eq_registerMembers _ _ _ _ _, ?_⟩
  intro name t ht
  rw [rtffLoop_fst_eq_registerMembers] at ht
  exact registerMembers_new_tool _ _ _ _ _ ht

/-- Witness for C6: discovering `"dir/mod.py"` of `envMod` (locally defined
`f` and `g`, imported `h`). -/
theorem c6_witness :
    envMod.loadResult "dir/mod.py" = .ok [memF, memG, memH] ∧
    ∃ res, register_tools_from_file envMod ToolRegistry.init "dir/mod.py" = .ok res ∧
      res.1 = registerMembers (normFilePath "dir/mod.py") ToolRegistry.init
        ([memF, memG, memH].filter (memberKept (moduleNameOf "dir/mod.py"))) ∧
      (∀ name t, dictLookup res.1.tools name = some t →
        dictLookup ToolRegistry.init.tools name = some t ∨
          (t.code = "" ∧ t.path = normFilePath "dir/mod.py")) :=
  ⟨rfl, c6_file_discovery_registers_local_members envMod ToolRegistry.init
    "dir/mod.py" [memF, memG, memH] rfl⟩

/-- C7: A module-load failure is not caught anywhere: it propagates as-is out
of `register_tools_from_file`, out of `register_tools_from_path` for a `.py`
file, and out of `validate_tool_names` when the failing file appears as a
path identifier. -/
theorem c7_module_load_failure_propagates (env : Env) (reg : ToolRegistry)
    (fp e : String) (h : env.loadResult fp = .error e) :
    register_tools_from_file env reg fp = .error e ∧
    (env.isfile fp = true → strEndsWith fp ".py" = true →
      register_tools_from_path env reg fp = .error e) ∧
    (∀ rest, env.isfile fp = true → strEndsWith fp ".py" = true →
      validate_tool_names env reg (fp :: rest) = .error e) := by
  have h1 : register_tools_from_file env reg fp = .error e := by
    unfold register_tools_from_file load_module_from_file
    rw [h]
  have h2 : env.isfile fp = true → strEndsWith fp ".py" = true →
      register_tools_from_path env reg fp = .error e := by
    intro hf hpy
    unfold register_tools_from_path
    rw [if_pos (show (env.isfile fp && strEndsWith fp ".py") = true by
      rw [hf, hpy]; rfl)]
    exact h1
  refine ⟨h1, h2, ?_⟩
  intro rest hf hpy
  have hcond : (env.isdir fp || env.isfile fp) = true := by rw [hf, Bool.or_true]
  unfold validate_tool_names
  simp only [validateLoop, hcond, if_true, h2 hf hpy]

/-- Witness for C7: the unloadable file `"bad.py"` of `envFail` propagates its
error through discovery and resolution. -/
theorem c7_witness :
    envFail.loadResult "bad.py" = .error "syntax error" ∧
    register_tools_from_file envFail ToolRegistry.init "bad.py" =
      .error "syntax error" ∧
    register_tools_from_path envFail ToolRegistry.init "bad.py" =
      .error "syntax error" ∧
    validate_tool_names envFail ToolRegistry.init ["bad.py"] =
      .error "syntax error" := by
  have h := c7_module_load_failure_propagates envFail ToolRegistry.init "bad.py"
    "syntax error" rfl
  exact ⟨rfl, h.1, h.2.1 (by decide) (by decide), h.2.2 [] (by decide) (by decide)⟩

/-- C8: Registering a name leaves every other name's entry in the primary
store and in every tag bucket exactly as it was; previously registered Tool
records are never modified. -/
theorem c8_registration_frame (r : ToolRegistry) (n p c : String)
    (tags : Option (List String)) (conv : ConvOutcome) (w sh : Bool)
    (name' : String) (h : name' ≠ n) :
    (r.register_tool n p c tags conv w sh).get_tool name' = r.get_tool name' ∧
    ∀ tag,
      dictLookup ((r.register_tool n p c tags conv w sh).get_tools_by_tag tag) name' =
        dictLookup (r.get_tools_by_tag tag) name' :=
  ⟨register_tool_get_tool_ne _ _ _ _ _ _ _ _ _ h,
    fun tag => register_tool_tag_lookup_ne _ _ _ _ _ _ _ _ _ h tag⟩

/-- Witness for C8: registering `"u"` into `regOne` (which holds `"t"` under
tag `"tg"`) leaves `"t"`'s store entry and tag entry unchanged. -/
theorem c8_witness :
    ("t" : String) ≠ "u" ∧
    (regOne.register_tool "u" "q" "" (some ["tg"])
        (.returns [("description", "e")]) true true).get_tool "t" =
      regOne.get_tool "t" ∧
    dictLookup ((regOne.register_tool "u" "q" "" (some ["tg"])
        (.returns [("description", "e")]) true true).get_tools_by_tag "tg") "t" =
      dictLookup (regOne.get_tools_by_tag "tg") "t" := by
  have h := c8_registration_frame regOne "u" "q" "" (some ["tg"])
    (.returns [("description", "e")]) true true "t" (by decide)
  exact ⟨by decide, h.1, h.2 "tg"⟩

/-- C9: The mapping returned by `register_tools_from_file` has an entry for
every locally-defined class/function member — with value `none` when that
registration was aborted by a conversion failure, and with the previously
stored Tool when the name was already registered — and every entry equals the
final registry lookup for its name, so the mapping is not guaranteed to hold
Tools registered from this file. -/
theorem c9_returned_mapping_entries (env : Env) (reg : ToolRegistry) (fp : String)
    (mems : List Member) (h : env.loadResult fp = .ok mems)
    (hnd : ((mems.filter (memberKept (moduleNameOf fp))).map Member.name).Nodup) :
    ∃ res, register_tools_from_file env reg fp = .ok res ∧
      (∀ m ∈ mems, memberKept (moduleNameOf fp) m = true →
        (dictLookup res.2 m.name).isSome = true) ∧
      (∀ name v, dictLookup res.2 name = some v → v = res.1.get_tool name) ∧
      (∀ m ∈ mems, memberKept (moduleNameOf fp) m = true →
        reg.has_tool m.name = true →
        dictLookup res.2 m.name = some (reg.get_tool m.name)) ∧
      (∀ m ∈ mems, memberKept (moduleNameOf fp) m = true →
        reg.has_tool m.name = false → make_schema m.conv m.writeOk = [] →
        dictLookup res.2 m.name = some none) := by
  refine ⟨rtffLoop (moduleNameOf fp) reg [] fp mems,
    register_tools_from_file_ok env reg fp mems h, ?_, ?_, ?_, ?_⟩
  · intro m hm hk
    exact rtffLoop_mem_isSome _ _ _ _ _ _ hm hk
  · intro name v hv
    refine rtffLoop_acc_sync _ _ _ _ _ ?_ name v hv
    intro name' v' h'
    simp [dictLookup] at h'
  · intro m hm hk hht
    exact rtffLoop_entry_prev _ _ _ _ _ _ hnd hm hk hht
  · intro m hm hk hht hsch
    exact rtffLoop_entry_aborted _ _ _ _ _ _ hnd hm hk hht hsch

/-- Witness for C9: discovering `"dir/mod.py"` of `envMod`, whose member `g`
has a raising converter, from the empty registry. -/
theorem c9_witness :
    envMod.loadResult "dir/mod.py" = .ok [memF, memG, memH] ∧
    (([memF, memG, memH].filter
      (memberKept (moduleNameOf "dir/mod.py"))).map Member.name).Nodup ∧
    ∃ res, register_tools_from_file envMod ToolRegistry.init "dir/mod.py" = .ok res ∧
      (∀ m ∈ [memF, memG, memH], memberKept (moduleNameOf "dir/mod.py") m = true →
        (dictLookup res.2 m.name).isSome = true) ∧
      (∀ name v, dictLookup res.2 name = some v → v = res.1.get_tool name) ∧
      (∀ m ∈ [memF, memG, memH], memberKept (moduleNameOf "dir/mod.py") m = true →
        ToolRegistry.init.has_tool m.name = true →
        dictLookup res.2 m.name = some (ToolRegistry.init.get_tool m.name)) ∧
      (∀ m ∈ [memF, memG, memH], memberKept (moduleNameOf "dir/mod.py") m = true →
        ToolRegistry.init.has_tool m.name = false →
        make_schema m.conv m.writeOk = [] →
        dictLookup res.2 m.name = some none) :=
  ⟨rfl, by decide, c9_returned_mapping_entries envMod ToolRegistry.init "dir/mod.py"
    [memF, memG, memH] rfl (by decide)⟩

/-- C10: For a fresh registration whose converter succeeds but whose
schema-file write fails, the caught failure empties the schema and the
registration is aborted with the registry unchanged — exactly as a conversion
failure is. -/
theorem c10_write_failure_blocks_registration (r : ToolRegistry) (n p c : String)
    (tags : Option (List String)) (s : List (String × String)) (sh w' sh' : Bool) :
    r.register_tool n p c tags (.returns s) false sh = r ∧
    r.register_tool n p c tags (.returns s) false sh =
      r.register_tool n p c tags .raises w' sh' := by
  have ha := register_tool_abort r n p c tags (.returns s) false sh rfl
  have hb := register_tool_abort r n p c tags .raises w' sh' rfl
  exact ⟨ha, by rw [ha, hb]⟩

end ToolRegistrySpec
